import Mathlib

/-!
Shallow embedding of the calendar-sync and occupancy engine of
`src/main.py` (Saisonnier Pro / StayFlow).

Modelling conventions:
* Calendar dates are integers (a day number); the code's `date` values are
  totally ordered whole days and only their order and successor structure
  matter to the engine.
* External effects (the HTTP HEAD check in `validate_ical_url`, the GET in
  the fetch, and the date parsing done by the `ics` library / `dateutil`)
  are inputs to the model: each property carries the boolean outcome of the
  URL validation and an `Option` holding the fetched, parsed event list
  (`none` = network error / unparseable calendar, which the code catches
  and skips); each event carries the `Option` outcome of parsing its
  begin/end values to dates (`none` = the per-event `except: continue`).
* The SQLAlchemy session of `import_icals_for_user` is created with
  `autoflush=False`, so the per-event `db.query(...).first()` lookup sees
  only committed rows, never the rows `db.add`-ed earlier in the same pass;
  the single `db.commit()` at the end of the pass flushes every pending row
  and enforces the declared `UniqueConstraint('property_id','external_uid')`.
  The model mirrors this: lookups run against the committed store, pending
  inserts accumulate in a list, and the commit either appends them all
  (`some`) or fails with nothing landing (`none`) when a pending row's
  (property id, external uid) key collides with a committed or an earlier
  pending one.
-/

/-- A row of the `reservations` table (fields of the `Reservation` model).
`total_price` is `Option`al (the manual form may leave it empty);
`external_uid` is `none` for rows the manual CRUD paths create (they never
set it) and `some uid` for rows the sync inserts. -/
structure Reservation where
  property_id : Nat
  source : String
  guest_name : String
  start_date : Int
  end_date : Int
  total_price : Option ℚ
  external_uid : Option String
deriving DecidableEq

/-- A parsed iCal event as the sync loop sees it: `uid` and `name` are the
library's optional fields, `beginRaw`/`endRaw` stand for `str(ev.begin)` /
`str(ev.end)` (used verbatim in uid synthesis), and `beginDate`/`endDate`
are the outcomes of `ev.begin.date()` / `ev.end.date()` (`none` when the
code's `try` block raises and the event is skipped). -/
structure IcsEvent where
  uid : Option String
  name : Option String
  beginRaw : String
  endRaw : String
  beginDate : Option Int
  endDate : Option Int
deriving DecidableEq

/-- A row of the `properties` table. The model has exactly the columns of
the source (`id`, `title`, `ical_url`, `owner_id`); in particular there is
no last-sync timestamp column. -/
structure Property where
  id : Nat
  title : String
  ical_url : String
  owner_id : Nat
deriving DecidableEq

/-- One property together with the environment's answers for it during a
sync pass: the boolean result of `validate_ical_url(p.ical_url)` and the
outcome of the `httpx` GET + `IcsCalendar` parse (`none` when the `except`
around the fetch fires and the property is skipped). -/
structure PropFeed where
  prop : Property
  urlValid : Bool
  fetched : Option (List IcsEvent)
deriving DecidableEq

/-- `(ev.name or "")`: Python `or` falls through on `None`. -/
def strOrEmpty : Option String → String
  | some s => s
  | none => ""

/-- Python's `str.strip()` on a character list: drop leading and trailing
whitespace. -/
def stripChars (l : List Char) : List Char :=
  ((l.dropWhile Char.isWhitespace).reverse.dropWhile Char.isWhitespace).reverse

/-- Python's `str.strip()` (no arguments): remove leading and trailing
whitespace. -/
def pyStrip (s : String) : String :=
  String.mk (stripChars s.data)

/-- `uid = str(ev.uid or f"{p.id}-{ev.begin}-{ev.end}")`: the event's own
uid when it is truthy (present and non-empty), otherwise the synthesized
string built from the property id and the raw begin/end values. -/
def eventUid (pid : Nat) (ev : IcsEvent) : String :=
  match ev.uid with
  | some u => if u = "" then toString pid ++ "-" ++ ev.beginRaw ++ "-" ++ ev.endRaw else u
  | none => toString pid ++ "-" ++ ev.beginRaw ++ "-" ++ ev.endRaw

/-- The per-event lookup
`db.query(Reservation).filter(property_id == p.id, external_uid == uid).first()`
against the committed store. -/
def findRes (store : List Reservation) (pid : Nat) (uid : String) : Option Reservation :=
  store.find? (fun r => decide (r.property_id = pid ∧ r.external_uid = some uid))

/-- The row built by the sync's `db.add(Reservation(...))` call:
`source="ical"`, `guest_name=(ev.name or "").strip()`, the truncated
dates, `total_price=0.0`, and the derived uid. -/
def importedOf (pid : Nat) (ev : IcsEvent) (ds de : Int) : Reservation :=
  { property_id := pid
    source := "ical"
    guest_name := pyStrip (strOrEmpty ev.name)
    start_date := ds
    end_date := de
    total_price := some 0
    external_uid := some (eventUid pid ev) }

/-- The `for ev in cal.events` loop body for one property: skip events
whose dates fail to parse, skip events whose (property id, uid) key already
has a committed reservation, and otherwise pend a new imported row.
Lookups run against `store` only (autoflush is off). -/
def pendingOfEvents (store : List Reservation) (pid : Nat) : List IcsEvent → List Reservation
  | [] => []
  | ev :: rest =>
    match ev.beginDate, ev.endDate with
    | some ds, some de =>
      (match findRes store pid (eventUid pid ev) with
       | some _ => pendingOfEvents store pid rest
       | none => importedOf pid ev ds de :: pendingOfEvents store pid rest)
    | _, _ => pendingOfEvents store pid rest

/-- The `for p in props` loop of `import_icals_for_user`: the query filter
(`owner_id == user_id`, `ical_url != ""`), the `validate_ical_url` guard,
the fetch (skipped on failure), and the event loop; all pended rows of the
pass are collected in order. -/
def userPending (store : List Reservation) (userId : Nat) : List PropFeed → List Reservation
  | [] => []
  | pf :: rest =>
    if pf.prop.owner_id = userId ∧ pf.prop.ical_url ≠ "" then
      if pf.urlValid then
        match pf.fetched with
        | some evs => pendingOfEvents store pf.prop.id evs ++ userPending store userId rest
        | none => userPending store userId rest
      else userPending store userId rest
    else userPending store userId rest

/-- The (property id, external uid) key governed by
`UniqueConstraint('property_id', 'external_uid')`; `NULL` uids (manual
rows) never conflict. -/
def uidKey (r : Reservation) : Option (Nat × String) :=
  r.external_uid.map (fun u => (r.property_id, u))

/-- Keys already present in the committed store. -/
def committedKeys (store : List Reservation) : List (Nat × String) :=
  store.filterMap uidKey

/-- The commit-time flush: pending rows are inserted one by one, and each
insert must not collide with a committed key nor with an earlier pending
insert, or the constraint fires and the commit raises. -/
def keysFresh : List Reservation → List (Nat × String) → Bool
  | [], _ => true
  | r :: rs, seen =>
    match uidKey r with
    | some k => !(seen.contains k) && keysFresh rs (k :: seen)
    | none => keysFresh rs seen

/-- `import_icals_for_user(user_id)`: one pass over the user's properties
with one commit at the very end. `some store2` is a successful commit
(`store2` is the committed store plus every pended row); `none` is the
`IntegrityError` the commit raises when pended rows violate the uniqueness
constraint, in which case nothing lands (the session is closed and the
transaction rolled back). -/
def import_icals_for_user (userId : Nat) (feeds : List PropFeed)
    (store : List Reservation) : Option (List Reservation) :=
  if keysFresh (userPending store userId feeds) (committedKeys store) then
    some (store ++ userPending store userId feeds)
  else none

/-- Fuel-indexed unfolding of the `while d < r.end_date` marking loop of
`calendar_view`: `n` counts the remaining iterations. -/
def daysFromAux : Nat → Int → List Int
  | 0, _ => []
  | n + 1, s => s :: daysFromAux n (s + 1)

/-- The `while d < r.end_date` marking loop of `calendar_view`: the days it
visits starting from `s` are exactly `(e - s).toNat` consecutive days (none
when `e ≤ s`, so the loop body never runs). -/
def daysFrom (s e : Int) : List Int :=
  daysFromAux (e - s).toNat s

/-- All `(property_id, day)` keys that `calendar_view` sets to `True` in
its `busy` dict, over the given reservation list. -/
def busyKeys : List Reservation → List (Nat × Int)
  | [] => []
  | r :: rs => (daysFrom r.start_date r.end_date).map (fun d => (r.property_id, d)) ++ busyKeys rs

/-- `busy.get((pid, day))` of `calendar_view`: a key is occupied iff some
reservation's marking loop set it. -/
def busy (rs : List Reservation) (pid : Nat) (d : Int) : Bool :=
  (busyKeys rs).contains (pid, d)

/-- `overlaps`: the half-open interval overlap test of the source. -/
def overlaps (aStart aEnd bStart bEnd : Int) : Bool :=
  decide (aStart < bEnd ∧ bStart < aEnd)

/-- `reservation_new_post`: date parsing outcomes are inputs (`none` =
`date.fromisoformat` raised and the handler returns 400); `e ≤ s` is
rejected; `propOwned` is the ownership lookup's success. On success one
manual row (no external uid) is appended. -/
def reservation_new_post (store : List Reservation) (propOwned : Bool) (pid : Nat)
    (guest : String) (sd ed : Option Int) (price : Option ℚ) : List Reservation :=
  match sd, ed with
  | some s, some e =>
    if e ≤ s then store
    else if propOwned then
      store ++ [{ property_id := pid, source := "manual", guest_name := pyStrip guest,
                  start_date := s, end_date := e, total_price := price,
                  external_uid := none }]
    else store
  | _, _ => store

/-- `reservation_edit_post`: same date validation; the reservation is
addressed by its position `i` in the store (the code's lookup by id);
`propOwned` is the target-property ownership check. On success the row's
property, guest name, dates and price are overwritten; `source` and
`external_uid` are not touched by this handler. -/
def reservation_edit_post (store : List Reservation) (i : Nat) (propOwned : Bool)
    (pid : Nat) (guest : String) (sd ed : Option Int) (price : Option ℚ) : List Reservation :=
  match sd, ed with
  | some s, some e =>
    if e ≤ s then store
    else if propOwned then
      match store.get? i with
      | some r =>
        store.set i { r with property_id := pid, guest_name := pyStrip guest,
                             start_date := s, end_date := e, total_price := price }
      | none => store
    else store
  | _, _ => store

/-! ### Concrete instances used by the witnesses and counterexamples -/

def c2prop : Property := { id := 1, title := "Gite", ical_url := "https://cal.example/p1.ics", owner_id := 1 }

def c2ev : IcsEvent :=
  { uid := some "abc123", name := some "J. Doe", beginRaw := "2024-09-01",
    endRaw := "2024-09-04", beginDate := some 19967, endDate := some 19970 }

def c2feeds : List PropFeed := [{ prop := c2prop, urlValid := true, fetched := some [c2ev] }]

def c2out : List Reservation :=
  [{ property_id := 1, source := "ical", guest_name := "J. Doe", start_date := 19967,
     end_date := 19970, total_price := some 0, external_uid := some "abc123" }]

def c3res : Reservation :=
  { property_id := 1, source := "manual", guest_name := "Alice", start_date := 10,
    end_date := 12, total_price := some 300, external_uid := none }

def c3prop : Property := { id := 1, title := "Gite", ical_url := "https://cal.example/p1.ics", owner_id := 1 }

def c3ev : IcsEvent :=
  { uid := some ". feed uid .", name := some "Bob", beginRaw := "2024-09-01",
    endRaw := "2024-09-04", beginDate := some 19967, endDate := some 19970 }

def c3feeds : List PropFeed := [{ prop := c3prop, urlValid := true, fetched := some [c3ev] }]

def c3out : List Reservation :=
  [c3res,
   { property_id := 1, source := "ical", guest_name := "Bob", start_date := 19967,
     end_date := 19970, total_price := some 0, external_uid := some ". feed uid ." }]

def c1res : Reservation :=
  { property_id := 1, source := "ical", guest_name := "Old Guest", start_date := 0,
    end_date := 2, total_price := some 0, external_uid := some "u1" }

def c1prop : Property := { id := 1, title := "Gite", ical_url := "https://cal.example/p1.ics", owner_id := 1 }

def c1ev : IcsEvent :=
  { uid := some "u1", name := some "New Guest", beginRaw := "2000-01-06",
    endRaw := "2000-01-08", beginDate := some 5, endDate := some 7 }

def c1feeds : List PropFeed := [{ prop := c1prop, urlValid := true, fetched := some [c1ev] }]

def c5prop : Property := { id := 4, title := "Loft", ical_url := "https://cal.example/p4.ics", owner_id := 2 }

def c5ev : IcsEvent :=
  { uid := some "abc123", name := none, beginRaw := "2024-09-01",
    endRaw := "2024-09-04", beginDate := some 19967, endDate := some 19970 }

def c5res : Reservation :=
  { property_id := 4, source := "ical", guest_name := "", start_date := 19967,
    end_date := 19970, total_price := some 0, external_uid := some "abc123" }

def c6prop : Property := { id := 5, title := "Villa", ical_url := "https://cal.example/p5.ics", owner_id := 3 }

def c6ev1 : IcsEvent :=
  { uid := some "dup-uid", name := some "First", beginRaw := "2024-07-01",
    endRaw := "2024-07-03", beginDate := some 100, endDate := some 102 }

def c6ev2 : IcsEvent :=
  { uid := some "dup-uid", name := some "Second", beginRaw := "2024-07-05",
    endRaw := "2024-07-08", beginDate := some 104, endDate := some 107 }

def c7propA : Property := { id := 11, title := "A", ical_url := "https://cal.example/a.ics", owner_id := 7 }

def c7propB : Property := { id := 12, title := "B", ical_url := "https://cal.example/b.ics", owner_id := 7 }

def c7dup : IcsEvent :=
  { uid := some "dup", name := some "X", beginRaw := "2024-07-01",
    endRaw := "2024-07-03", beginDate := some 100, endDate := some 102 }

def c7good : IcsEvent :=
  { uid := some "ok", name := some "Y", beginRaw := "2024-07-10",
    endRaw := "2024-07-12", beginDate := some 110, endDate := some 112 }

def c7resB : Reservation :=
  { property_id := 12, source := "ical", guest_name := "Y", start_date := 110,
    end_date := 112, total_price := some 0, external_uid := some "ok" }

def c8own : IcsEvent :=
  { uid := some "own-uid", name := none, beginRaw := "x", endRaw := "y",
    beginDate := none, endDate := none }

def c8a : IcsEvent :=
  { uid := none, name := some "Alice", beginRaw := "2024-06-10",
    endRaw := "2024-06-13", beginDate := some 10, endDate := some 13 }

def c8b : IcsEvent :=
  { uid := none, name := some "Bob", beginRaw := "2024-06-10",
    endRaw := "2024-06-13", beginDate := some 10, endDate := some 13 }

def c8long : IcsEvent :=
  { uid := some (String.mk (List.replicate 300 'a')), name := none, beginRaw := "b",
    endRaw := "e", beginDate := some 1, endDate := some 2 }

def c9prop : Property := { id := 6, title := "Chalet", ical_url := "https://cal.example/p6.ics", owner_id := 4 }

def c9bad : IcsEvent :=
  { uid := some "bad-ev", name := some "Broken", beginRaw := "not-a-date",
    endRaw := "also-bad", beginDate := none, endDate := none }

def c9good : IcsEvent :=
  { uid := some "good-ev", name := some "Fine", beginRaw := "2024-08-01",
    endRaw := "2024-08-05", beginDate := some 200, endDate := some 204 }

def c10prop : Property := { id := 3, title := "Studio", ical_url := "https://cal.example/p3.ics", owner_id := 9 }

/-- A timed same-day event (2024-06-10 14:00 to 16:00): `ev.begin.date()`
and `ev.end.date()` both truncate to 2024-06-10 (day 19884). -/
def c10ev : IcsEvent :=
  { uid := some "same-day", name := some "G", beginRaw := "2024-06-10 14:00:00",
    endRaw := "2024-06-10 16:00:00", beginDate := some 19884, endDate := some 19884 }

def c10res : Reservation :=
  { property_id := 3, source := "ical", guest_name := "G", start_date := 19884,
    end_date := 19884, total_price := some 0, external_uid := some "same-day" }

/-! ### Basic lemmas about the embedding -/

lemma contains_iff_mem {α : Type} [BEq α] [LawfulBEq α] (seen : List α) (k : α) :
    seen.contains k = true ↔ k ∈ seen := by
  simp [List.contains]

lemma mem_committedKeys_iff (store : List Reservation) (k : Nat × String) :
    k ∈ committedKeys store ↔
      ∃ r ∈ store, r.property_id = k.1 ∧ r.external_uid = some k.2 := by
  constructor
  · intro h
    rcases List.mem_filterMap.mp h with ⟨r, hr, hk⟩
    cases hu : r.external_uid with
    | none => rw [uidKey, hu] at hk; cases hk
    | some v =>
      rw [uidKey, hu] at hk
      cases hk
      exact ⟨r, hr, rfl, by rw [hu]⟩
  · obtain ⟨a, b⟩ := k
    rintro ⟨r, hr, h1, h2⟩
    refine List.mem_filterMap.mpr ⟨r, hr, ?_⟩
    rw [uidKey, h2]
    simp [h1]

lemma findRes_isSome_iff (store : List Reservation) (pid : Nat) (uid : String) :
    (findRes store pid uid).isSome = true ↔
      ∃ r ∈ store, r.property_id = pid ∧ r.external_uid = some uid := by
  unfold findRes
  rw [List.find?_isSome]
  constructor
  · rintro ⟨r, hr, hp⟩
    exact ⟨r, hr, of_decide_eq_true hp⟩
  · rintro ⟨r, hr, hp⟩
    exact ⟨r, hr, decide_eq_true hp⟩

lemma findRes_eq_none_iff (store : List Reservation) (pid : Nat) (uid : String) :
    findRes store pid uid = none ↔
      ∀ r ∈ store, ¬(r.property_id = pid ∧ r.external_uid = some uid) := by
  unfold findRes
  rw [List.find?_eq_none]
  constructor
  · intro h r hr hp
    exact absurd (h r hr) (by simp [hp])
  · intro h r hr
    simpa using h r hr

/-- A successful pass commits exactly the committed store followed by every
pended row. -/
lemma import_shape {u : Nat} {feeds : List PropFeed} {store out : List Reservation}
    (h : import_icals_for_user u feeds store = some out) :
    out = store ++ userPending store u feeds := by
  unfold import_icals_for_user at h
  split at h
  · cases h; rfl
  · exact Option.noConfusion h

/-! ### Occupancy index (C4) -/

lemma mem_daysFromAux (n : Nat) : ∀ s d : Int, d ∈ daysFromAux n s ↔ s ≤ d ∧ d < s + n := by
  induction n with
  | zero => intro s d; simp [daysFromAux]
  | succ m ih =>
    intro s d
    simp only [daysFromAux, List.mem_cons, ih (s + 1) d]
    omega

lemma mem_daysFrom (s e d : Int) : d ∈ daysFrom s e ↔ s ≤ d ∧ d < e := by
  unfold daysFrom
  rw [mem_daysFromAux]
  omega

lemma mem_busyKeys (rs : List Reservation) (pid : Nat) (d : Int) :
    (pid, d) ∈ busyKeys rs ↔
      ∃ r ∈ rs, r.property_id = pid ∧ r.start_date ≤ d ∧ d < r.end_date := by
  induction rs with
  | nil => simp [busyKeys]
  | cons r rest ih =>
    simp only [busyKeys, List.mem_append, List.mem_map, ih, List.mem_cons]
    constructor
    · rintro (⟨d2, hd2, hp⟩ | ⟨r2, hr2, h⟩)
      · rcases Prod.mk.injEq .. ▸ hp with ⟨h1, h2⟩
        subst h2
        exact ⟨r, Or.inl rfl, h1, (mem_daysFrom _ _ _).mp hd2⟩
      · exact ⟨r2, Or.inr hr2, h⟩
    · rintro ⟨r2, hr2 | hr2, h1, h2⟩
      · subst hr2
        exact Or.inl ⟨d, (mem_daysFrom _ _ _).mpr h2, by rw [h1]⟩
      · exact Or.inr ⟨r2, hr2, h1, h2⟩

/-! ### Reconciler step lemmas -/

/-- An event whose begin fails to parse is skipped by the event loop. -/
lemma pending_skip_bad_begin (store : List Reservation) (pid : Nat) (ev : IcsEvent)
    (rest : List IcsEvent) (h : ev.beginDate = none) :
    pendingOfEvents store pid (ev :: rest) = pendingOfEvents store pid rest := by
  obtain ⟨u0, n0, b0, e0, bd0, ed0⟩ := ev
  simp only at h
  subst h
  rfl

/-- An event whose end fails to parse is skipped by the event loop. -/
lemma pending_skip_bad_end (store : List Reservation) (pid : Nat) (ev : IcsEvent)
    (rest : List IcsEvent) (h : ev.endDate = none) :
    pendingOfEvents store pid (ev :: rest) = pendingOfEvents store pid rest := by
  obtain ⟨u0, n0, b0, e0, bd0, ed0⟩ := ev
  simp only at h
  subst h
  cases bd0 <;> rfl

/-- A parseable event whose key already has a committed reservation is
skipped: nothing is pended for it and the found row is not modified. -/
lemma pending_skip_found (store : List Reservation) (pid : Nat) (ev : IcsEvent)
    (rest : List IcsEvent) (ds de : Int) (r0 : Reservation)
    (hb : ev.beginDate = some ds) (he : ev.endDate = some de)
    (hf : findRes store pid (eventUid pid ev) = some r0) :
    pendingOfEvents store pid (ev :: rest) = pendingOfEvents store pid rest := by
  obtain ⟨u0, n0, b0, e0, bd0, ed0⟩ := ev
  simp only at hb he
  subst hb; subst he
  simp only [pendingOfEvents]
  rw [hf]

/-- A parseable event with no committed reservation for its key pends
exactly one new imported row. -/
lemma pending_insert (store : List Reservation) (pid : Nat) (ev : IcsEvent)
    (rest : List IcsEvent) (ds de : Int)
    (hb : ev.beginDate = some ds) (he : ev.endDate = some de)
    (hf : findRes store pid (eventUid pid ev) = none) :
    pendingOfEvents store pid (ev :: rest) =
      importedOf pid ev ds de :: pendingOfEvents store pid rest := by
  obtain ⟨u0, n0, b0, e0, bd0, ed0⟩ := ev
  simp only at hb he
  subst hb; subst he
  simp only [pendingOfEvents]
  rw [hf]

/-- Rows pended for the tail of an event list are pended for the whole
list as well. -/
lemma mem_pending_cons (store : List Reservation) (pid : Nat) (ev : IcsEvent)
    (rest : List IcsEvent) (r : Reservation)
    (h : r ∈ pendingOfEvents store pid rest) :
    r ∈ pendingOfEvents store pid (ev :: rest) := by
  obtain ⟨u0, n0, b0, e0, bd0, ed0⟩ := ev
  cases bd0 with
  | none => exact h
  | some ds =>
    cases ed0 with
    | none => exact h
    | some de =>
      simp only [pendingOfEvents]
      cases findRes store pid (eventUid pid ⟨u0, n0, b0, e0, some ds, some de⟩) with
      | some r0 => exact h
      | none => exact List.mem_cons_of_mem _ h

/-- Every parseable event of a list is, after the event loop, covered:
its key either already had a committed reservation, or a pended row
carries exactly that key. -/
lemma pending_covers (store : List Reservation) (pid : Nat) :
    ∀ evs : List IcsEvent, ∀ ev ∈ evs, ∀ ds de : Int,
      ev.beginDate = some ds → ev.endDate = some de →
      (findRes store pid (eventUid pid ev)).isSome = true ∨
        ∃ r ∈ pendingOfEvents store pid evs,
          r.property_id = pid ∧ r.external_uid = some (eventUid pid ev) := by
  intro evs
  induction evs with
  | nil => intro ev hev; cases hev
  | cons e rest ih =>
    intro ev hev ds de hb he
    rcases List.mem_cons.mp hev with hev | hev
    · subst hev
      cases hf : findRes store pid (eventUid pid ev) with
      | some r0 => exact Or.inl rfl
      | none =>
        refine Or.inr ⟨importedOf pid ev ds de, ?_, rfl, rfl⟩
        rw [pending_insert store pid ev rest ds de hb he hf]
        exact List.mem_cons_self _ _
    · rcases ih ev hev ds de hb he with h | ⟨r, hr, hk⟩
      · exact Or.inl h
      · exact Or.inr ⟨r, mem_pending_cons store pid e rest r hr, hk⟩

/-! ### Orchestrator lemmas -/

/-- A property feed that passes the filters and fetches contributes its
pended rows to the pass. -/
lemma mem_userPending_of (store : List Reservation) (u : Nat) :
    ∀ feeds : List PropFeed, ∀ pf ∈ feeds,
      pf.prop.owner_id = u → pf.prop.ical_url ≠ "" → pf.urlValid = true →
      ∀ evs, pf.fetched = some evs →
      ∀ r ∈ pendingOfEvents store pf.prop.id evs, r ∈ userPending store u feeds := by
  intro feeds
  induction feeds with
  | nil => intro pf hpf; cases hpf
  | cons pf0 rest ih =>
    intro pf hpf h1 h2 h3 evs h4 r hr
    rcases List.mem_cons.mp hpf with hpf | hpf
    · subst hpf
      simp only [userPending, if_pos (And.intro h1 h2), h3, if_pos rfl, h4]
      exact List.mem_append_left _ hr
    · have htail : r ∈ userPending store u rest := ih pf hpf h1 h2 h3 evs h4 r hr
      simp only [userPending]
      split
      · split
        · cases pf0.fetched with
          | some evs0 => exact List.mem_append_right _ htail
          | none => exact htail
        · exact htail
      · exact htail

/-- If every parseable event's key is already committed, the event loop
pends nothing. -/
lemma pending_nil_of_covered (big : List Reservation) (pid : Nat) :
    ∀ evs : List IcsEvent,
      (∀ ev ∈ evs, ∀ ds de : Int, ev.beginDate = some ds → ev.endDate = some de →
        (findRes big pid (eventUid pid ev)).isSome = true) →
      pendingOfEvents big pid evs = [] := by
  intro evs
  induction evs with
  | nil => intro _; rfl
  | cons e rest ih =>
    intro h
    have htail := ih (fun ev hev ds de hb he => h ev (List.mem_cons_of_mem _ hev) ds de hb he)
    cases hbd : e.beginDate with
    | none => rw [pending_skip_bad_begin big pid e rest hbd]; exact htail
    | some ds =>
      cases hed : e.endDate with
      | none => rw [pending_skip_bad_end big pid e rest hed]; exact htail
      | some de =>
        have hh := h e (List.mem_cons_self _ _) ds de hbd hed
        cases hf : findRes big pid (eventUid pid e) with
        | none => rw [hf] at hh; simp at hh
        | some r0 =>
          rw [pending_skip_found big pid e rest ds de r0 hbd hed hf]
          exact htail

/-- If every filtered-in property's event list pends nothing, the whole
pass pends nothing. -/
lemma userPending_nil_of_covered (big : List Reservation) (u : Nat) :
    ∀ feeds : List PropFeed,
      (∀ pf ∈ feeds, pf.prop.owner_id = u → pf.prop.ical_url ≠ "" → pf.urlValid = true →
        ∀ evs, pf.fetched = some evs → pendingOfEvents big pf.prop.id evs = []) →
      userPending big u feeds = [] := by
  intro feeds
  induction feeds with
  | nil => intro _; rfl
  | cons pf rest ih =>
    intro h
    have htail := ih (fun q hq => h q (List.mem_cons_of_mem _ hq))
    simp only [userPending]
    split
    · rename_i hcond
      cases h3 : pf.urlValid with
      | false => simp [htail]
      | true =>
        cases h4 : pf.fetched with
        | none => simpa using htail
        | some evs =>
          have hp := h pf (List.mem_cons_self _ _) hcond.1 hcond.2 h3 evs h4
          simp [hp, htail]
    · exact htail

/-- After a successful pass, re-running the same pass over the same feeds
pends nothing: every parseable event's key is now committed. -/
lemma userPending_after_success {u : Nat} {feeds : List PropFeed} {store out : List Reservation}
    (h : import_icals_for_user u feeds store = some out) :
    userPending out u feeds = [] := by
  have hout := import_shape h
  apply userPending_nil_of_covered
  intro pf hpf h1 h2 h3 evs h4
  apply pending_nil_of_covered
  intro ev hev ds de hb he
  rcases pending_covers store pf.prop.id evs ev hev ds de hb he with hcov | ⟨r, hr, hk1, hk2⟩
  · rw [findRes_isSome_iff] at hcov ⊢
    rcases hcov with ⟨r, hrs, hp⟩
    exact ⟨r, by rw [hout]; exact List.mem_append_left _ hrs, hp⟩
  · rw [findRes_isSome_iff]
    refine ⟨r, ?_, hk1, hk2⟩
    rw [hout]
    exact List.mem_append_right _ (mem_userPending_of store u feeds pf hpf h1 h2 h3 evs h4 r hr)

/-! ### Claim theorems -/

/-- C2: Syncing a property twice against byte-identical feed content
yields the same reservation set as syncing it once: after a successful
pass, re-running the same pass pends no new reservation and commits the
store unchanged (no duplicates, no changed fields). -/
theorem sync_idempotent (u : Nat) (feeds : List PropFeed) (store out : List Reservation)
    (h : import_icals_for_user u feeds store = some out) :
    userPending out u feeds = [] ∧ import_icals_for_user u feeds out = some out := by
  have hnil := userPending_after_success h
  refine ⟨hnil, ?_⟩
  unfold import_icals_for_user
  rw [hnil]
  simp [keysFresh]

theorem sync_idempotent_witness :
    userPending c2out 1 c2feeds = [] ∧ import_icals_for_user 1 c2feeds c2out = some c2out :=
  sync_idempotent 1 c2feeds [] c2out (by decide)

/-- C3: A reservation with source `manual` is never altered by a sync
pass: on a successful pass it is still present and the whole original
store survives unchanged as the prefix of the result (the pass only
appends newly imported rows, and a failed pass commits nothing). -/
theorem manual_reservations_untouched (u : Nat) (feeds : List PropFeed)
    (store out : List Reservation) (r : Reservation)
    (_hm : r.source = "manual") (hr : r ∈ store)
    (h : import_icals_for_user u feeds store = some out) :
    r ∈ out ∧ out.take store.length = store := by
  have hout := import_shape h
  exact ⟨by rw [hout]; exact List.mem_append_left _ hr,
         by rw [hout]; exact List.take_left _ _⟩

theorem manual_reservations_untouched_witness :
    c3res ∈ c3out ∧ c3out.take [c3res].length = [c3res] :=
  manual_reservations_untouched 1 c3feeds [c3res] c3out c3res rfl
    (List.mem_cons_self _ _) (by decide)

/-- C1 (amended): when a normalized event's (property id, external
identifier) pair matches an existing reservation, the reconciler does not
update it at all: the event is skipped (it pends no row), and on a
successful pass the matched reservation — dates, guest name, source and
price alike — survives unchanged, the original store being a prefix of the
result. -/
theorem matched_event_never_updated (store : List Reservation) (pid : Nat)
    (ev : IcsEvent) (rest : List IcsEvent) (ds de : Int) (r0 : Reservation)
    (u : Nat) (feeds : List PropFeed) (out : List Reservation)
    (hb : ev.beginDate = some ds) (he : ev.endDate = some de)
    (hf : findRes store pid (eventUid pid ev) = some r0)
    (h : import_icals_for_user u feeds store = some out) :
    pendingOfEvents store pid (ev :: rest) = pendingOfEvents store pid rest ∧
    r0 ∈ out ∧ out.take store.length = store := by
  refine ⟨pending_skip_found store pid ev rest ds de r0 hb he hf, ?_, ?_⟩
  · have hmem : r0 ∈ store := by
      unfold findRes at hf
      exact List.mem_of_find?_eq_some hf
    rw [import_shape h]
    exact List.mem_append_left _ hmem
  · rw [import_shape h]
    exact List.take_left _ _

theorem matched_event_never_updated_witness :
    pendingOfEvents [c1res] 1 (c1ev :: []) = pendingOfEvents [c1res] 1 [] ∧
    c1res ∈ [c1res] ∧ [c1res].take [c1res].length = [c1res] :=
  matched_event_never_updated [c1res] 1 c1ev [] 5 7 c1res 1 c1feeds [c1res]
    rfl rfl (by decide) (by decide)

/-- C1 counterexample: the claim as stated is false. The stored
reservation keeps start 0 / end 2 / guest "Old Guest" even though the
matching incoming event normalizes to start 5 / end 7 / guest
"New Guest": nothing is updated in place. -/
theorem matched_event_update_counterexample :
    import_icals_for_user 1 c1feeds [c1res] = some [c1res] ∧
    c1ev.beginDate = some 5 ∧ c1ev.endDate = some 7 ∧
    c1res.start_date = 0 ∧ c1res.end_date = 2 ∧ c1res.guest_name = "Old Guest" ∧
    pyStrip (strOrEmpty c1ev.name) = "New Guest" ∧
    (0 : Int) ≠ 5 ∧ (2 : Int) ≠ 7 ∧ "Old Guest" ≠ "New Guest" := by
  refine ⟨by decide, rfl, rfl, rfl, rfl, rfl, by decide, by decide, by decide, by decide⟩

/-- C4: The occupancy index marks, for each reservation, exactly the days
of the half-open interval [start, end): a (property, day) cell is busy iff
some reservation of that property has start ≤ day < end; the end date
itself is never marked by its own reservation. -/
theorem busy_iff_covered (rs : List Reservation) (pid : Nat) (d : Int) :
    busy rs pid d = true ↔
      ∃ r ∈ rs, r.property_id = pid ∧ r.start_date ≤ d ∧ d < r.end_date := by
  unfold busy
  rw [contains_iff_mem, mem_busyKeys]

/-- C5 (amended): a normalized event whose (property id, external
identifier) pair has no existing reservation is inserted as exactly one
new row with source `"ical"` (the code's literal, not `"imported"`), the
normalized dates, the stripped event name (the empty string when the name
is absent — no placeholder), zero price, and the derived identifier. -/
theorem new_event_inserted (u : Nat) (prop : Property) (ev : IcsEvent) (ds de : Int)
    (store : List Reservation)
    (h1 : prop.owner_id = u) (h2 : prop.ical_url ≠ "")
    (h3 : ev.beginDate = some ds) (h4 : ev.endDate = some de)
    (h5 : findRes store prop.id (eventUid prop.id ev) = none) :
    import_icals_for_user u [{ prop := prop, urlValid := true, fetched := some [ev] }] store
      = some (store ++ [importedOf prop.id ev ds de]) ∧
    (importedOf prop.id ev ds de).source = "ical" ∧
    (importedOf prop.id ev ds de).guest_name = pyStrip (strOrEmpty ev.name) ∧
    (importedOf prop.id ev ds de).start_date = ds ∧
    (importedOf prop.id ev ds de).end_date = de ∧
    (importedOf prop.id ev ds de).total_price = some 0 ∧
    (importedOf prop.id ev ds de).external_uid = some (eventUid prop.id ev) := by
  refine ⟨?_, rfl, rfl, rfl, rfl, rfl, rfl⟩
  have hpend : userPending store u [{ prop := prop, urlValid := true, fetched := some [ev] }]
      = [importedOf prop.id ev ds de] := by
    simp only [userPending, if_pos (And.intro h1 h2)]
    rw [pending_insert store prop.id ev [] ds de h3 h4 h5]
    rfl
  have hnot : (prop.id, eventUid prop.id ev) ∉ committedKeys store := by
    rw [mem_committedKeys_iff]
    rintro ⟨r, hr, hp1, hp2⟩
    exact (findRes_eq_none_iff store prop.id (eventUid prop.id ev)).mp h5 r hr ⟨hp1, hp2⟩
  have hfresh : keysFresh [importedOf prop.id ev ds de] (committedKeys store) = true := by
    simp only [keysFresh, uidKey, importedOf, Option.map_some', Bool.and_true,
      Bool.not_eq_true']
    cases hc : (committedKeys store).contains (prop.id, eventUid prop.id ev) with
    | false => rfl
    | true => exact absurd ((contains_iff_mem _ _).mp hc) hnot
  unfold import_icals_for_user
  rw [hpend, if_pos hfresh]

theorem new_event_inserted_witness :
    import_icals_for_user 2 [{ prop := c5prop, urlValid := true, fetched := some [c5ev] }] []
      = some ([] ++ [importedOf c5prop.id c5ev 19967 19970]) ∧
    (importedOf c5prop.id c5ev 19967 19970).source = "ical" ∧
    (importedOf c5prop.id c5ev 19967 19970).guest_name = pyStrip (strOrEmpty c5ev.name) ∧
    (importedOf c5prop.id c5ev 19967 19970).start_date = 19967 ∧
    (importedOf c5prop.id c5ev 19967 19970).end_date = 19970 ∧
    (importedOf c5prop.id c5ev 19967 19970).total_price = some 0 ∧
    (importedOf c5prop.id c5ev 19967 19970).external_uid = some (eventUid c5prop.id c5ev) :=
  new_event_inserted 2 c5prop c5ev 19967 19970 [] rfl (by decide) rfl rfl rfl

/-- C5 counterexample: the stored source string of a freshly imported
reservation is `"ical"`, not `"imported"`, and an event with no name is
stored with guest name `""`, not a placeholder. -/
theorem imported_source_counterexample :
    import_icals_for_user 2 [{ prop := c5prop, urlValid := true, fetched := some [c5ev] }] []
      = some [c5res] ∧
    c5res.source = "ical" ∧ "ical" ≠ "imported" ∧
    c5ev.name = none ∧ c5res.guest_name = "" := by
  exact ⟨by decide, rfl, by decide, rfl, rfl⟩

/-- C6 (amended): two events of one feed that normalize to the same
identifier for a property with no committed reservation for that pair do
raise an error: both rows are pended (the lookup sees only committed
rows), the end-of-pass commit violates the (property id, external uid)
uniqueness constraint, the pass fails, and nothing — in particular no
last-write-wins row — lands. -/
theorem duplicate_uid_commit_fails (u : Nat) (prop : Property) (ev1 ev2 : IcsEvent)
    (ds1 de1 ds2 de2 : Int) (store : List Reservation)
    (h1 : prop.owner_id = u) (h2 : prop.ical_url ≠ "")
    (hb1 : ev1.beginDate = some ds1) (he1 : ev1.endDate = some de1)
    (hb2 : ev2.beginDate = some ds2) (he2 : ev2.endDate = some de2)
    (huid : eventUid prop.id ev2 = eventUid prop.id ev1)
    (hf : findRes store prop.id (eventUid prop.id ev1) = none) :
    import_icals_for_user u [{ prop := prop, urlValid := true, fetched := some [ev1, ev2] }] store
      = none := by
  have hf2 : findRes store prop.id (eventUid prop.id ev2) = none := by rw [huid]; exact hf
  have hpend : userPending store u [{ prop := prop, urlValid := true, fetched := some [ev1, ev2] }]
      = [importedOf prop.id ev1 ds1 de1, importedOf prop.id ev2 ds2 de2] := by
    simp only [userPending, if_pos (And.intro h1 h2)]
    rw [pending_insert store prop.id ev1 [ev2] ds1 de1 hb1 he1 hf]
    rw [pending_insert store prop.id ev2 [] ds2 de2 hb2 he2 hf2]
    rfl
  have hfresh : keysFresh
      [importedOf prop.id ev1 ds1 de1, importedOf prop.id ev2 ds2 de2]
      (committedKeys store) = false := by
    simp [keysFresh, uidKey, importedOf, huid, List.contains]
  unfold import_icals_for_user
  rw [hpend, hfresh]
  rfl

theorem duplicate_uid_commit_fails_witness :
    import_icals_for_user 3 [{ prop := c6prop, urlValid := true, fetched := some [c6ev1, c6ev2] }] []
      = none :=
  duplicate_uid_commit_fails 3 c6prop c6ev1 c6ev2 100 102 104 107 []
    rfl (by decide) rfl rfl rfl rfl rfl rfl

/-- C6 counterexample: on a malformed feed with two events sharing one
identifier, the pass returns the commit error (`none`) and the store keeps
zero reservations for the pair — not "no error raised" with one
reservation reflecting the later event. -/
theorem duplicate_uid_counterexample :
    import_icals_for_user 3 [{ prop := c6prop, urlValid := true, fetched := some [c6ev1, c6ev2] }] []
      = none ∧
    (none : Option (List Reservation)) ≠
      some [importedOf c6prop.id c6ev2 104 107] := by
  exact ⟨by decide, by decide⟩

/-- C7 (amended): a property whose fetch fails is skipped — the pass
proceeds exactly as if that property were absent, its reservations
untouched. There is no per-property commit and no last-sync timestamp:
the `Property` model has no such column, and all of the pass's changes
are committed as one unit at the very end (see the cross-property
counterexample). -/
theorem fetch_failure_skips_property (u : Nat) (pf : PropFeed) (rest : List PropFeed)
    (store : List Reservation) (h : pf.fetched = none) :
    import_icals_for_user u (pf :: rest) store = import_icals_for_user u rest store := by
  have hpend : userPending store u (pf :: rest) = userPending store u rest := by
    obtain ⟨p0, v0, f0⟩ := pf
    simp only at h
    subst h
    simp only [userPending]
    split
    · cases v0 <;> rfl
    · rfl
  unfold import_icals_for_user
  rw [hpend]

theorem fetch_failure_skips_property_witness :
    import_icals_for_user 7
        ({ prop := c7propA, urlValid := true, fetched := none } ::
          [{ prop := c7propB, urlValid := true, fetched := some [c7good] }]) []
      = import_icals_for_user 7 [{ prop := c7propB, urlValid := true, fetched := some [c7good] }] [] :=
  fetch_failure_skips_property 7 { prop := c7propA, urlValid := true, fetched := none }
    [{ prop := c7propB, urlValid := true, fetched := some [c7good] }] [] rfl

/-- C7 counterexample: commits are not per-property units. Property A's
malformed feed (two events, one identifier) makes the single end-of-pass
commit fail, and property B's perfectly valid event is discarded with it
(`none`), although B alone would have imported one reservation — so one
property's failure does affect the others in the same pass. -/
theorem cross_property_commit_counterexample :
    import_icals_for_user 7
        [{ prop := c7propA, urlValid := true, fetched := some [c7dup, c7dup] },
         { prop := c7propB, urlValid := true, fetched := some [c7good] }] []
      = none ∧
    import_icals_for_user 7
        [{ prop := c7propB, urlValid := true, fetched := some [c7good] }] []
      = some [c7resB] := by
  exact ⟨by decide, by decide⟩

/-- C8 (amended): the normalizer prefers the event's own uid when present
and non-empty; when absent it synthesizes the identifier deterministically
from the property id and the raw begin/end values — the event title plays
no role — so two unlabeled events with the same raw dates collapse to one
identifier whatever their titles; no truncation is applied (see the
counterexample for an identifier kept at 300 characters). -/
theorem event_uid_synthesis (pid : Nat) (ev0 ev1 ev2 : IcsEvent) (u : String)
    (h0 : ev0.uid = some u) (hu : u ≠ "")
    (h1 : ev1.uid = none) (h2 : ev2.uid = none)
    (hb : ev1.beginRaw = ev2.beginRaw) (he : ev1.endRaw = ev2.endRaw) :
    eventUid pid ev0 = u ∧
    eventUid pid ev1 = toString pid ++ "-" ++ ev1.beginRaw ++ "-" ++ ev1.endRaw ∧
    eventUid pid ev1 = eventUid pid ev2 := by
  refine ⟨?_, ?_, ?_⟩
  · obtain ⟨u0, n0, b0, e0, bd0, ed0⟩ := ev0
    simp only at h0
    subst h0
    simp only [eventUid]
    rw [if_neg hu]
  · obtain ⟨u0, n0, b0, e0, bd0, ed0⟩ := ev1
    simp only at h1
    subst h1
    rfl
  · obtain ⟨u0, n0, b0, e0, bd0, ed0⟩ := ev1
    obtain ⟨u0', n0', b0', e0', bd0', ed0'⟩ := ev2
    simp only at h1 h2 hb he
    subst h1; subst h2; subst hb; subst he
    rfl

theorem event_uid_synthesis_witness :
    eventUid 7 c8own = "own-uid" ∧
    eventUid 7 c8a = toString 7 ++ "-" ++ c8a.beginRaw ++ "-" ++ c8a.endRaw ∧
    eventUid 7 c8a = eventUid 7 c8b :=
  event_uid_synthesis 7 c8own c8a c8b "own-uid" rfl (by decide) rfl rfl rfl rfl

set_option maxRecDepth 8000 in
/-- C8 counterexample: the identifier is not truncated to 255 characters —
an event with a 300-character uid keeps all 300 characters. -/
theorem event_uid_no_truncation :
    (eventUid 5 c8long).length = 300 ∧ ¬((eventUid 5 c8long).length ≤ 255) := by
  exact ⟨by decide, by decide⟩

/-- C9: a feed with one event whose start date is unparseable and one
valid event yields exactly one created reservation on an empty store: the
bad event is skipped, no error is raised, and the valid event still
reconciles. -/
theorem unparseable_event_skipped (u : Nat) (prop : Property) (bad good : IcsEvent)
    (ds de : Int)
    (h1 : prop.owner_id = u) (h2 : prop.ical_url ≠ "")
    (hbad : bad.beginDate = none)
    (hg1 : good.beginDate = some ds) (hg2 : good.endDate = some de) :
    import_icals_for_user u [{ prop := prop, urlValid := true, fetched := some [bad, good] }] []
      = some [importedOf prop.id good ds de] := by
  have hfind : findRes [] prop.id (eventUid prop.id good) = none := rfl
  have hpend : userPending [] u [{ prop := prop, urlValid := true, fetched := some [bad, good] }]
      = [importedOf prop.id good ds de] := by
    simp only [userPending, if_pos (And.intro h1 h2)]
    rw [pending_skip_bad_begin [] prop.id bad [good] hbad]
    rw [pending_insert [] prop.id good [] ds de hg1 hg2 hfind]
    rfl
  unfold import_icals_for_user
  rw [hpend]
  rfl

theorem unparseable_event_skipped_witness :
    import_icals_for_user 4 [{ prop := c9prop, urlValid := true, fetched := some [c9bad, c9good] }] []
      = some [importedOf c9prop.id c9good 200 204] :=
  unparseable_event_skipped 4 c9prop c9bad c9good 200 204 rfl (by decide) rfl rfl rfl

/-! ### Manual CRUD paths preserve the date invariant; the sync does not -/

/-- `reservation_new_post` preserves `end > start`: invalid or
non-positive-length date ranges are rejected before any insert. -/
lemma new_post_preserves_invariant (store : List Reservation) (propOwned : Bool)
    (pid : Nat) (guest : String) (sd ed : Option Int) (price : Option ℚ)
    (hstore : ∀ r ∈ store, r.start_date < r.end_date) :
    ∀ r ∈ reservation_new_post store propOwned pid guest sd ed price,
      r.start_date < r.end_date := by
  intro r hr
  unfold reservation_new_post at hr
  cases sd with
  | none => exact hstore r hr
  | some s =>
    cases ed with
    | none => exact hstore r hr
    | some e =>
      simp only at hr
      by_cases hle : e ≤ s
      · rw [if_pos hle] at hr; exact hstore r hr
      · rw [if_neg hle] at hr
        cases propOwned with
        | false => exact hstore r hr
        | true =>
          simp only [if_pos rfl] at hr
          rcases List.mem_append.mp hr with hr | hr
          · exact hstore r hr
          · rcases List.mem_singleton.mp hr with rfl
            simp only
            omega

/-- `reservation_edit_post` preserves `end > start`: the edited row gets
the validated dates and every other row is unchanged. -/
lemma edit_post_preserves_invariant (store : List Reservation) (i : Nat) (propOwned : Bool)
    (pid : Nat) (guest : String) (sd ed : Option Int) (price : Option ℚ)
    (hstore : ∀ r ∈ store, r.start_date < r.end_date) :
    ∀ r ∈ reservation_edit_post store i propOwned pid guest sd ed price,
      r.start_date < r.end_date := by
  intro r hr
  unfold reservation_edit_post at hr
  cases sd with
  | none => exact hstore r hr
  | some s =>
    cases ed with
    | none => exact hstore r hr
    | some e =>
      simp only at hr
      by_cases hle : e ≤ s
      · rw [if_pos hle] at hr; exact hstore r hr
      · rw [if_neg hle] at hr
        cases propOwned with
        | false => exact hstore r hr
        | true =>
          simp only [if_pos rfl] at hr
          cases hg : store.get? i with
          | none => rw [hg] at hr; exact hstore r hr
          | some r0 =>
            rw [hg] at hr
            rcases List.mem_or_eq_of_mem_set hr with hr | rfl
            · exact hstore r hr
            · simp only
              omega

/-- C10: the sync path violates the `end > start` invariant that both
manual handlers enforce: importing a timed same-day event inserts a
reservation with `end_date = start_date`. -/
theorem sync_breaks_date_invariant :
    import_icals_for_user 9 [{ prop := c10prop, urlValid := true, fetched := some [c10ev] }] []
      = some [c10res] ∧
    ¬(c10res.start_date < c10res.end_date) := by
  exact ⟨by decide, by decide⟩
